import Mathlib

/-!
Verification of the ragflow document-processing pipeline against its
natural-language specification.  The definitions below are shallow
embeddings of the Python source:

* `api/db/services/task_service.py` — `queue_tasks` (task partitioner) and
  `TaskService.get_tasks` (claim-and-fetch);
* `rag/svr/task_executor.py` — `collect`/the `__main__` poll loop (queue
  consumer), `build` (chunking stage), `embedding` (embedding stage),
  `run_raptor` (recursive summarization), and the indexing section of
  `main`.

Machine integers are modelled by `Nat`/`Int`, progress floats by `Rat`,
external capabilities (storage, embedding backend, hash, tokenizer) by
function parameters.
-/

namespace RagFlow

/-! ### Task partitioner (`queue_tasks`, task_service.py lines 213-236)

`pageWindowsAux` embeds the Python loop
`for p in range(s, e, page_size): (p, min(p + page_size, e))`.
The fuel argument makes the recursion structural; `pageWindows` supplies
fuel `e - s`, which suffices whenever `0 < size`. -/

def pageWindowsAux (size : Nat) : Nat → Nat → Nat → List (Nat × Nat)
  | 0, _, _ => []
  | fuel + 1, s, e =>
    if s < e then (s, min (s + size) e) :: pageWindowsAux size fuel (s + size) e
    else []

def pageWindows (s e size : Nat) : List (Nat × Nat) :=
  pageWindowsAux size (e - s) s e

/-- Embeds the range normalization in `queue_tasks`:
`s -= 1; s = max(0, s); e = min(e - 1, pages)` (Python ints, so `Int`
inputs; `Int.toNat` realizes the `max(0, ·)` clamp, and a negative upper
bound collapses to `0`, which yields the same empty window list as
Python's empty `range`). -/
def normRange (pages : Nat) (r : Int × Int) : Nat × Nat :=
  ((r.1 - 1).toNat, (min (r.2 - 1) (pages : Int)).toNat)

/-- Embeds the PDF branch of `queue_tasks`: the parser-config `pages`
list (empty list modelling an absent/falsy entry, replaced by the
sentinel `[(1, 10^5)]` via Python's `or`), each range normalized and
subdivided into windows of `page_size`. -/
def queue_tasks_pdf (pages page_size : Nat) (page_ranges : List (Int × Int)) :
    List (Nat × Nat) :=
  let ranges := if page_ranges.isEmpty then [((1 : Int), (10 : Int) ^ 5)] else page_ranges
  (ranges.map (fun r => pageWindows (normRange pages r).1 (normRange pages r).2 page_size)).flatten

/-- Embeds the page-size selection in `queue_tasks`: default 12,
default 22 for the `paper` profile, forced to `10^9` for `one`,
`knowledge_graph`, or when layout recognition is off. -/
def effectivePageSize (parser_id : String) (task_page_size : Option Nat)
    (layout_recognize : Bool) : Nat :=
  let ps := if parser_id = "paper" then task_page_size.getD 22 else task_page_size.getD 12
  if parser_id = "one" ∨ parser_id = "knowledge_graph" ∨ ¬ layout_recognize then 10 ^ 9
  else ps

/-! ### Claim-and-fetch (`TaskService.get_tasks`, task_service.py lines 86-110)

The joined row is abstracted to the fields the operation reads and
writes back (`retry_count`, `progress`, `progress_msg`); `randProg`
stands for Python's `random.random() / 10.0`.  `get_tasks` returns the
fetched row list (read before the update, as in the source) together
with the updated stored record. -/

structure TaskRecord where
  retry_count : Nat
  progress : Rat
  progress_msg : String
deriving DecidableEq

def receivedMsg : String := "\nTask has been received."

def abandonMsg : String := "\nERROR: Task is abandoned after 3 times attempts."

def get_tasks (t : TaskRecord) (randProg : Rat) : List TaskRecord × TaskRecord :=
  if t.retry_count ≥ 3 then
    ([], { retry_count := t.retry_count + 1, progress := -1,
           progress_msg := t.progress_msg ++ abandonMsg })
  else
    ([t], { retry_count := t.retry_count + 1, progress := randProg,
            progress_msg := t.progress_msg ++ receivedMsg })

/-- Iterated claim attempts: the stored record after `n` calls of
`get_tasks`. -/
def afterClaims (t : TaskRecord) (randProg : Rat) : Nat → TaskRecord
  | 0 => t
  | n + 1 => (get_tasks (afterClaims t randProg n) randProg).2

/-! ### Queue consumer (`collect` lines 133-148 and the `__main__` ack
loop lines 632-636 of task_executor.py)

Messages are identified by `Nat` ids.  `Broker` holds the consumer's
pending unacknowledged message (`REDIS_CONN.get_unacked_for`) and the
shared stream (`REDIS_CONN.queue_consumer`).  `collect` claims the
pending message first and draws from the stream only when none is
pending.  `pollCycle` is one iteration of the `__main__` loop: claim,
run the full pipeline (`main()` — covering success, controlled failure,
skip-on-cancel and abandonment), then acknowledge. -/

inductive ConsumeEvent
  | claim (m : Nat)
  | handle (m : Nat)
  | ack (m : Nat)
deriving DecidableEq

structure Broker where
  unacked : Option Nat
  stream : List Nat
deriving DecidableEq

def collect : Broker → Option Nat × Broker
  | ⟨some m, st⟩ => (some m, ⟨some m, st⟩)
  | ⟨none, []⟩ => (none, ⟨none, []⟩)
  | ⟨none, m :: rest⟩ => (some m, ⟨some m, rest⟩)

def pollCycle (b : Broker) : List ConsumeEvent × Broker :=
  match collect b with
  | (none, b1) => ([], b1)
  | (some m, b1) =>
    ([ConsumeEvent.claim m, ConsumeEvent.handle m, ConsumeEvent.ack m],
     { b1 with unacked := none })

/-! ### Chunking stage (`build`, task_executor.py lines 172-376)

External calls are modelled by parameters: `hash` is the md5 content
hash, `fetch` the outcome of the storage read, `chunkResult` the outcome
of the parser-registry chunker.  The trace of observable calls is
returned as a list of `Eff`.  The optional image-persistence and the
parser-config-gated keyword/question post-processing branches are not
modelled (the claims concern the default path where those flags are
absent). -/

inductive FetchResult
  | ok
  | timeout
  | notFound
  | failed (msg : String)
deriving DecidableEq

inductive Eff
  | progress (prog : Option Rat) (msg : String)
  | storageGet
  | chunkerCall (from_page to_page : Nat)
  | embedCall
  | initKb
  | esBulk
  | esDeleteByDocId
  | incrementChunkNum
deriving DecidableEq

structure Row where
  size : Nat
  doc_id : String
  name : String
  from_page : Nat
  to_page : Nat
deriving DecidableEq

def sizeLimitMsg (maxSize : Nat) : String :=
  "File size exceeds( <= " ++ toString (maxSize / 1024 / 1024) ++ "Mb )"

/-- One produced chunk as stamped by `build` lines 283-295: deterministic
id `md5(content_with_weight + doc_id)`, document linkage, creation
timestamp. -/
structure Stamped where
  chunk_id : String
  doc_id : String
  content_with_weight : String
  create_timestamp : Nat
deriving DecidableEq

def stamp (hash : String → String) (doc_id : String) (ts : Nat) (cks : List String) :
    List Stamped :=
  cks.map (fun c =>
    { chunk_id := hash (c ++ doc_id), doc_id := doc_id,
      content_with_weight := c, create_timestamp := ts })

def build (maxSize : Nat) (hash : String → String) (row : Row) (ts : Nat)
    (fetch : FetchResult) (chunkResult : Except String (List String)) :
    List Eff × Option (List Stamped) :=
  if row.size > maxSize then
    ([Eff.progress (some (-1)) (sizeLimitMsg maxSize)], some [])
  else
    match fetch with
    | FetchResult.timeout =>
      ([Eff.storageGet,
        Eff.progress (some (-1))
          "Internal server error: Fetch file from minio timeout. Could you try it again."],
       none)
    | FetchResult.notFound =>
      ([Eff.storageGet,
        Eff.progress (some (-1))
          ("Can not find file <" ++ row.name ++ "> from minio. Could you try it again?")],
       none)
    | FetchResult.failed m =>
      ([Eff.storageGet, Eff.progress (some (-1)) ("Get file from minio: " ++ m)], none)
    | FetchResult.ok =>
      match chunkResult with
      | Except.error m =>
        ([Eff.storageGet, Eff.chunkerCall row.from_page row.to_page,
          Eff.progress (some (-1)) ("Internal server error while chunking: " ++ m)],
         none)
      | Except.ok cks =>
        ([Eff.storageGet, Eff.chunkerCall row.from_page row.to_page],
         some (stamp hash row.doc_id ts cks))

/-! ### Batch slicing

Embeds Python's `for i in range(0, len(l), size): l[i : i + size]`, used
with `size = 32` by `embedding` and `size = 4` by the indexing loop of
`main`.  The fuel argument (list length) makes the recursion
structural. -/

def sliceBatchesAux (size : Nat) : Nat → List α → List (List α)
  | 0, _ => []
  | fuel + 1, l =>
    if l.isEmpty then [] else l.take size :: sliceBatchesAux size fuel (l.drop size)

def sliceBatches (size : Nat) (l : List α) : List (List α) :=
  sliceBatchesAux size l.length l

/-! ### Embedding stage (`embedding`, task_executor.py lines 393-455)

The backend's `encode` maps each text of a batch to a vector; `rmSpace`
and the HTML-table-tag stripping regex are abstract string functions.
Vectors are `List Rat`; `fuseVec` is numpy's
`title_w * tts + (1 - title_w) * cnts` elementwise. -/

structure EmbChunk where
  title_tks : Option String
  content_with_weight : String
deriving DecidableEq

/-- Python truthiness of `d.get("title_tks")`: present and non-empty. -/
def truthyTitle (d : EmbChunk) : Option String :=
  match d.title_tks with
  | some s => if s = "" then none else some s
  | none => none

def batchEncode (enc : String → List Rat) (texts : List String) : List (List Rat) :=
  ((sliceBatches 32 texts).map (fun b => b.map enc)).flatten

def fuseVec (w : Rat) (t c : List Rat) : List Rat :=
  List.zipWith (fun a b => w * a + (1 - w) * b) t c

def embedding (enc : String → List Rat) (rmSpace stripTags : String → String)
    (docs : List EmbChunk) (title_w : Rat) : List (List Rat) :=
  if (docs.filterMap (fun d => (truthyTitle d).map rmSpace)).length =
      (docs.map (fun d => stripTags d.content_with_weight)).length then
    List.zipWith (fuseVec title_w)
      (batchEncode enc (docs.filterMap (fun d => (truthyTitle d).map rmSpace)))
      (batchEncode enc (docs.map (fun d => stripTags d.content_with_weight)))
  else batchEncode enc (docs.map (fun d => stripTags d.content_with_weight))

/-! ### Indexing section of `main` (task_executor.py lines 564-601)

`bulk` models `ELASTICSEARCH.bulk` on one batch: it returns the error
value (`""` meaning success, mirroring the falsy empty result).  The
loop `for b in range(0, len(cks), es_bulk_size): es_r = ELASTICSEARCH.bulk(...)`
is the fold that overwrites `es_r` with each batch's result, starting
from `es_r = ""`. -/

structure IndexOutcome where
  deletedByDocId : Bool
  reportedFailure : Bool
  completed : Bool
deriving DecidableEq

def indexPhase (bulk : List String → String) (cks : List String) (cancelled : Bool) :
    IndexOutcome :=
  let es_r := (sliceBatches 4 cks).foldl (fun _ b => bulk b) ""
  if es_r ≠ "" then
    { deletedByDocId := true, reportedFailure := true, completed := false }
  else if cancelled then
    { deletedByDocId := true, reportedFailure := false, completed := false }
  else
    { deletedByDocId := false, reportedFailure := false, completed := true }

def noChunkMsg : String := "No chunk! Done!"

def insertErrMsg : String :=
  "Insert chunk error, detail info please check ragflow-logs/api/cron_logger.log. Please also check ES status!"

/-- The per-task body of `main` for a non-raptor task (task_executor.py
lines 533-601), as an effect trace: run `build`; on `None` stop; on an
empty chunk list report progress 1.0 with `noChunkMsg` and stop; else
embed and run the indexing section. -/
def mainHandle (maxSize : Nat) (hash : String → String) (row : Row) (ts : Nat)
    (fetch : FetchResult) (chunkResult : Except String (List String))
    (bulk : List String → String) (cancelled : Bool) : List Eff :=
  (build maxSize hash row ts fetch chunkResult).1 ++
    match (build maxSize hash row ts fetch chunkResult).2 with
    | none => []
    | some [] => [Eff.progress (some 1) noChunkMsg]
    | some cks =>
      let oc := indexPhase bulk (cks.map (fun c => c.content_with_weight)) cancelled
      [Eff.embedCall, Eff.initKb, Eff.esBulk] ++
        (if oc.reportedFailure then
          [Eff.progress (some (-1)) insertErrMsg, Eff.esDeleteByDocId]
        else if oc.deletedByDocId then [Eff.esDeleteByDocId]
        else [Eff.progress (some 1) "Done!", Eff.incrementChunkNum])

/-- The last progress value written on the trace (the task's final
observable progress). -/
def finalProgress (effs : List Eff) : Option Rat :=
  effs.foldl
    (fun acc e =>
      match e with
      | Eff.progress (some p) _ => some p
      | _ => acc)
    none

/-! ### Recursive summarization (`run_raptor`, task_executor.py lines 458-498)

The working set is a list of `(content, vector)` pairs; the `Raptor`
call appends synthesized pairs in place, so `run_raptor` is modelled on
the post-call working set `finalSet` and the recorded
`original_length`.  Emission drops the first `original_length` entries
and stamps each remaining pair. -/

structure RaptorChunk where
  chunk_id : String
  doc_id : String
  docnm_kwd : String
  title_tks : String
  content_with_weight : String
  content_ltks : String
  content_sm_ltks : String
  vec : List Rat
deriving DecidableEq

def run_raptor (hash tokenize fineGrained : String → String) (doc_id name : String)
    (finalSet : List (String × List Rat)) (original_length : Nat) : List RaptorChunk :=
  (finalSet.drop original_length).map (fun p =>
    { chunk_id := hash (p.1 ++ doc_id), doc_id := doc_id, docnm_kwd := name,
      title_tks := tokenize name, content_with_weight := p.1,
      content_ltks := tokenize p.1, content_sm_ltks := fineGrained (tokenize p.1),
      vec := p.2 })

/-! ### Id-keyed index store

The search index keyed by chunk id, with bulk upsert: inserting a chunk
whose id is present replaces it, otherwise appends it.  Used to state
idempotence of re-processing (claim about `_id = md5(content + doc_id)`,
build lines 288-291). -/

def upsert (store : List (String × String)) (c : String × String) :
    List (String × String) :=
  if c.1 ∈ store.map (fun p => p.1) then
    store.map (fun p => if p.1 = c.1 then c else p)
  else store ++ [c]

def bulkUpsert (store : List (String × String)) (cks : List (String × String)) :
    List (String × String) :=
  cks.foldl upsert store

def toKV (cks : List Stamped) : List (String × String) :=
  cks.map (fun c => (c.chunk_id, c.content_with_weight))

def chunkIds (cks : List Stamped) : List String := cks.map (fun c => c.chunk_id)

def storeKeys (store : List (String × String)) : List String := store.map (fun p => p.1)

lemma pageWindowsAux_nil (size fuel e : Nat) {s : Nat} (h : e ≤ s) :
    pageWindowsAux size fuel s e = [] := by
  cases fuel with
  | zero => rfl
  | succ n => simp [pageWindowsAux, Nat.not_lt.mpr h]

lemma pageWindowsAux_fuel_irrel (size : Nat) (hsize : 0 < size) :
    ∀ fuel fuel' s e, e - s ≤ fuel → e - s ≤ fuel' →
      pageWindowsAux size fuel s e = pageWindowsAux size fuel' s e := by
  intro fuel
  induction fuel with
  | zero =>
    intro fuel' s e h _
    have he : e ≤ s := by omega
    rw [pageWindowsAux_nil size 0 e he, pageWindowsAux_nil size fuel' e he]
  | succ n ih =>
    intro fuel' s e h h'
    cases fuel' with
    | zero =>
      have he : e ≤ s := by omega
      rw [pageWindowsAux_nil size (n + 1) e he, pageWindowsAux_nil size 0 e he]
    | succ m =>
      by_cases hlt : s < e
      · simp only [pageWindowsAux, if_pos hlt]
        have : e - (s + size) ≤ n := by omega
        have : e - (s + size) ≤ m := by omega
        rw [ih m (s + size) e (by omega) (by omega)]
      · simp [pageWindowsAux, hlt]

lemma pageWindows_eq_aux (size : Nat) (hsize : 0 < size) (s e fuel : Nat)
    (h : e - s ≤ fuel) : pageWindows s e size = pageWindowsAux size fuel s e :=
  pageWindowsAux_fuel_irrel size hsize (e - s) fuel s e (le_refl _) h

/-- Length of the window list: the ceiling `⌈(e - s) / size⌉`, written as
`(e - s + size - 1) / size` over `Nat`. -/
lemma pageWindowsAux_length (size : Nat) (hsize : 0 < size) :
    ∀ fuel s e, e - s ≤ fuel →
      (pageWindowsAux size fuel s e).length = (e - s + size - 1) / size := by
  intro fuel
  induction fuel with
  | zero =>
    intro s e h
    have he : e ≤ s := by omega
    rw [pageWindowsAux_nil size 0 e he]
    have h0 : e - s = 0 := by omega
    rw [h0]
    simp only [List.length_nil, Nat.zero_add]
    exact (Nat.div_eq_of_lt (by omega)).symm
  | succ n ih =>
    intro s e h
    by_cases hlt : s < e
    · simp only [pageWindowsAux, if_pos hlt, List.length_cons]
      rw [ih (s + size) e (by omega)]
      rcases Nat.lt_or_ge (e - s) size with hcase | hcase
      · -- last window: e - (s + size) = 0
        have h1 : e - (s + size) = 0 := by omega
        rw [h1]
        have h2 : (0 + size - 1) / size = 0 := Nat.div_eq_of_lt (by omega)
        rw [h2]
        have h3 : (e - s + size - 1) / size = 1 :=
          Nat.div_eq_of_lt_le (by omega) (by omega)
        omega
      · -- at least one full window remains
        have h1 : e - (s + size) = e - s - size := by omega
        rw [h1]
        have h2 : e - s + size - 1 = (e - s - size + size - 1) + size := by omega
        rw [h2, Nat.add_div_right _ hsize]
    · rw [pageWindowsAux_nil size (n + 1) e (by omega)]
      have h0 : e - s = 0 := by omega
      rw [h0]
      simp only [List.length_nil, Nat.zero_add]
      exact (Nat.div_eq_of_lt (by omega)).symm

/-- Every produced window sits inside `[s, e)` and is non-degenerate. -/
lemma pageWindowsAux_mem (size : Nat) (hsize : 0 < size) :
    ∀ fuel s e w, w ∈ pageWindowsAux size fuel s e →
      s ≤ w.1 ∧ w.1 < w.2 ∧ w.2 ≤ e := by
  intro fuel
  induction fuel with
  | zero => intro s e w hw; simp [pageWindowsAux] at hw
  | succ n ih =>
    intro s e w hw
    by_cases hlt : s < e
    · simp only [pageWindowsAux, if_pos hlt, List.mem_cons] at hw
      rcases hw with hw | hw
      · subst hw
        exact ⟨le_refl _, by simp; omega, by simp⟩
      · have := ih (s + size) e w hw
        omega
    · simp [pageWindowsAux, hlt] at hw

/-- Coverage: every index in `[s, e)` lies in some window (needs `0 < size`). -/
lemma pageWindowsAux_cover (size : Nat) (hsize : 0 < size) :
    ∀ fuel s e k, e - s ≤ fuel → s ≤ k → k < e →
      ∃ w ∈ pageWindowsAux size fuel s e, w.1 ≤ k ∧ k < w.2 := by
  intro fuel
  induction fuel with
  | zero => intro s e k h hs hk; exfalso; omega
  | succ n ih =>
    intro s e k h hs hk
    have hlt : s < e := by omega
    simp only [pageWindowsAux, if_pos hlt]
    by_cases hhead : k < min (s + size) e
    · exact ⟨(s, min (s + size) e), List.mem_cons_self _ _, hs, hhead⟩
    · have hk2 : s + size ≤ k := by
        rcases Nat.lt_or_ge k (s + size) with h1 | h1
        · exfalso; exact hhead (by omega)
        · exact h1
      obtain ⟨w, hwmem, hw⟩ := ih (s + size) e k (by omega) hk2 hk
      exact ⟨w, List.mem_cons_of_mem _ hwmem, hw⟩

/-- Adjacent windows abut: each window's end is the next window's start. -/
lemma pageWindowsAux_chain (size : Nat) :
    ∀ fuel s e, List.Chain' (fun a b : Nat × Nat => a.2 = b.1)
      (pageWindowsAux size fuel s e) := by
  intro fuel
  induction fuel with
  | zero => intro s e; simp [pageWindowsAux]
  | succ n ih =>
    intro s e
    by_cases hlt : s < e
    · simp only [pageWindowsAux, if_pos hlt]
      apply List.chain'_cons'.mpr
      refine ⟨?_, ih (s + size) e⟩
      intro w hw
      cases n with
      | zero => simp [pageWindowsAux] at hw
      | succ m =>
        by_cases h2 : s + size < e
        · simp only [pageWindowsAux, if_pos h2, List.head?_cons, Option.mem_def,
            Option.some.injEq] at hw
          subst hw
          simp
          omega
        · simp [pageWindowsAux, h2] at hw
    · simp [pageWindowsAux, hlt]

/-- Windows are pairwise non-overlapping (in order): each ends before the
next begins. -/
lemma pageWindowsAux_pairwise (size : Nat) (hsize : 0 < size) :
    ∀ fuel s e, List.Pairwise (fun a b : Nat × Nat => a.2 ≤ b.1)
      (pageWindowsAux size fuel s e) := by
  intro fuel
  induction fuel with
  | zero => intro s e; simp [pageWindowsAux]
  | succ n ih =>
    intro s e
    by_cases hlt : s < e
    · simp only [pageWindowsAux, if_pos hlt]
      refine List.pairwise_cons.mpr ⟨?_, ih (s + size) e⟩
      intro w hw
      have := pageWindowsAux_mem size hsize n (s + size) e w hw
      simp
      omega
    · simp [pageWindowsAux, hlt]

lemma pageWindows_length (s e size : Nat) (h : 0 < size) :
    (pageWindows s e size).length = (e - s + size - 1) / size :=
  pageWindowsAux_length size h (e - s) s e (le_refl _)

lemma pageWindows_mem (s e size : Nat) (h : 0 < size) {w : Nat × Nat}
    (hw : w ∈ pageWindows s e size) : s ≤ w.1 ∧ w.1 < w.2 ∧ w.2 ≤ e :=
  pageWindowsAux_mem size h (e - s) s e w hw

lemma pageWindows_cover (s e size : Nat) (h : 0 < size) {k : Nat}
    (hs : s ≤ k) (hk : k < e) : ∃ w ∈ pageWindows s e size, w.1 ≤ k ∧ k < w.2 :=
  pageWindowsAux_cover size h (e - s) s e k (le_refl _) hs hk

lemma pageWindows_chain (s e size : Nat) :
    List.Chain' (fun a b : Nat × Nat => a.2 = b.1) (pageWindows s e size) :=
  pageWindowsAux_chain size (e - s) s e

lemma pageWindows_pairwise (s e size : Nat) (h : 0 < size) :
    List.Pairwise (fun a b : Nat × Nat => a.2 ≤ b.1) (pageWindows s e size) :=
  pageWindowsAux_pairwise size h (e - s) s e

/-- With no explicit page range, the sentinel `(1, 10^5)` normalizes to
`[0, min 99999 pages)`. -/
lemma queue_tasks_pdf_default (pages size : Nat) :
    queue_tasks_pdf pages size [] = pageWindows 0 (min 99999 pages) size := by
  have hpow : ((10 : Int) ^ 5 - 1) = 99999 := by norm_num
  have h2 : (min (99999 : Int) (pages : Int)).toNat = min 99999 pages := by omega
  simp [queue_tasks_pdf, normRange, hpow, h2]

lemma queue_tasks_pdf_single (pages size : Nat) (s e : Int) :
    queue_tasks_pdf pages size [(s, e)] =
      pageWindows (s - 1).toNat (min (e - 1) (pages : Int)).toNat size := by
  simp [queue_tasks_pdf, normRange]

/-- C1 counterexample: for a 100000-page PDF with page size 12 and no
explicit page range, page index 99999 is in `[0, N)` but is covered by no
task: the default sentinel `(1, 10^5)` is normalized with
`e = min(e - 1, pages)` to the upper bound `10^5 - 1 = 99999`, so the
produced ranges do not jointly cover `[0, N)` once `N ≥ 100000`. -/
theorem c1_default_partition_counterexample :
    ¬ ∃ w ∈ queue_tasks_pdf 100000 12 [], w.1 ≤ 99999 ∧ 99999 < w.2 := by
  rw [queue_tasks_pdf_default]
  rintro ⟨w, hw, h1, h2⟩
  have hm := pageWindows_mem 0 (min 99999 100000) 12 (by norm_num) hw
  have : min 99999 100000 = 99999 := by norm_num
  omega

/-- C1 (amended: for documents of at most `10^5 - 1` pages): `queue_tasks`
on a PDF with `N` pages, page size `S` and no explicit page range in the
parser config produces `⌈N / S⌉` tasks whose `[from_page, to_page)`
ranges are contiguous (each range's end is the next range's start),
non-overlapping, and jointly cover `[0, N)`; in particular a 25-page PDF
with the default page size 12 yields exactly the three tasks
`[0,12), [12,24), [24,25)`. -/
theorem c1_default_partition (N S : Nat) (hS : 0 < S) (hN : N ≤ 99999) :
    (queue_tasks_pdf N S []).length = (N + S - 1) / S ∧
    List.Chain' (fun a b : Nat × Nat => a.2 = b.1) (queue_tasks_pdf N S []) ∧
    List.Pairwise (fun a b : Nat × Nat => a.2 ≤ b.1) (queue_tasks_pdf N S []) ∧
    (∀ k, k < N ↔ ∃ w ∈ queue_tasks_pdf N S [], w.1 ≤ k ∧ k < w.2) ∧
    queue_tasks_pdf 25 12 [] = [(0, 12), (12, 24), (24, 25)] := by
  have hmin : min 99999 N = N := by omega
  rw [queue_tasks_pdf_default, hmin]
  refine ⟨?_, pageWindows_chain 0 N S, pageWindows_pairwise 0 N S hS, ?_, ?_⟩
  · rw [pageWindows_length 0 N S hS, Nat.sub_zero]
  · intro k
    constructor
    · intro hk
      exact pageWindows_cover 0 N S hS (Nat.zero_le k) hk
    · rintro ⟨w, hw, h1, h2⟩
      have := pageWindows_mem 0 N S hS hw
      omega
  · decide

theorem c1_default_partition_witness :
    (queue_tasks_pdf 25 12 []).length = (25 + 12 - 1) / 12 ∧
    queue_tasks_pdf 25 12 [] = [(0, 12), (12, 24), (24, 25)] :=
  ⟨(c1_default_partition 25 12 (by norm_num) (by norm_num)).1,
   (c1_default_partition 25 12 (by norm_num) (by norm_num)).2.2.2.2⟩

/-- C5 counterexample: for the explicit 1-based inclusive range `(1, 10)`
on a 25-page PDF with page size 12, the single task produced is
`[0, 9)` — page 10 (0-based index 9) is in no task's range even though
`10 ≤ 25`, contradicting the claimed normalization to `[s-1, e)`. -/
theorem c5_range_normalization_counterexample :
    queue_tasks_pdf 25 12 [(1, 10)] = [(0, 9)] ∧
    ¬ ∃ w ∈ queue_tasks_pdf 25 12 [(1, 10)], w.1 ≤ 9 ∧ 9 < w.2 := by
  constructor
  · decide
  · decide

/-- C5 (amended): a page range `(s, e)` supplied in the parser config
(1-based, inclusive on the lower end) is normalized to the 0-based
half-open range `[max(0, s-1), min(e-1, total_pages))` — the upper bound
is `min(e - 1, total_pages)`, not `min(e, total_pages)`, so 1-based page
`e` itself is never included — and that range is subdivided into
consecutive, contiguous, non-overlapping windows of the page size. -/
theorem c5_range_normalization (pages size : Nat) (s e : Int) (hsize : 0 < size) :
    (∀ k : Nat, (∃ w ∈ queue_tasks_pdf pages size [(s, e)], w.1 ≤ k ∧ k < w.2) ↔
      ((s - 1).toNat ≤ k ∧ k < (min (e - 1) (pages : Int)).toNat)) ∧
    List.Chain' (fun a b : Nat × Nat => a.2 = b.1) (queue_tasks_pdf pages size [(s, e)]) ∧
    List.Pairwise (fun a b : Nat × Nat => a.2 ≤ b.1) (queue_tasks_pdf pages size [(s, e)]) ∧
    (queue_tasks_pdf pages size [(s, e)]).length =
      ((min (e - 1) (pages : Int)).toNat - (s - 1).toNat + size - 1) / size := by
  rw [queue_tasks_pdf_single]
  refine ⟨?_, pageWindows_chain _ _ size, pageWindows_pairwise _ _ size hsize,
    pageWindows_length _ _ size hsize⟩
  intro k
  constructor
  · rintro ⟨w, hw, h1, h2⟩
    have := pageWindows_mem _ _ size hsize hw
    omega
  · rintro ⟨h1, h2⟩
    exact pageWindows_cover _ _ size hsize h1 h2

theorem c5_range_normalization_witness :
    ∃ w ∈ queue_tasks_pdf 25 12 [(1, 10)], w.1 ≤ 5 ∧ 5 < w.2 :=
  ((c5_range_normalization 25 12 1 10 (by norm_num)).1 5).mpr (by decide)

lemma get_tasks_retry (t : TaskRecord) (r : Rat) :
    ((get_tasks t r).2).retry_count = t.retry_count + 1 := by
  by_cases h : t.retry_count ≥ 3 <;> simp [get_tasks, h]

lemma afterClaims_retry (t : TaskRecord) (r : Rat) :
    ∀ n, (afterClaims t r n).retry_count = t.retry_count + n := by
  intro n
  induction n with
  | zero => rfl
  | succ m ih => rw [afterClaims, get_tasks_retry, ih]; omega

/-- C2: the claim-and-fetch operation `get_tasks` increments the stored
retry count by exactly 1 on every claim; when the prior retry count has
already reached 3 it returns the empty list (the task is abandoned), sets
progress to -1 and appends the abandonment message; when the prior retry
count is below 3 the fetched row is returned; consequently a task whose
retry count starts at 0 is returned on its first three claims and
abandoned on its 4th claim attempt. -/
theorem c2_retry_abandon (t : TaskRecord) (r : Rat) :
    ((get_tasks t r).2).retry_count = t.retry_count + 1 ∧
    (3 ≤ t.retry_count →
      (get_tasks t r).1 = [] ∧ ((get_tasks t r).2).progress = -1 ∧
      ((get_tasks t r).2).progress_msg = t.progress_msg ++ abandonMsg) ∧
    (t.retry_count < 3 → (get_tasks t r).1 = [t]) ∧
    (t.retry_count = 0 →
      (∀ i < 3, (get_tasks (afterClaims t r i) r).1 = [afterClaims t r i]) ∧
      (get_tasks (afterClaims t r 3) r).1 = []) := by
  refine ⟨get_tasks_retry t r, ?_, ?_, ?_⟩
  · intro h
    simp [get_tasks, h]
  · intro h
    simp [get_tasks, Nat.not_le.mpr h]
  · intro h0
    constructor
    · intro i hi
      have hrc : (afterClaims t r i).retry_count = i := by rw [afterClaims_retry, h0]; omega
      have : ¬ (afterClaims t r i).retry_count ≥ 3 := by omega
      simp [get_tasks, this]
    · have hrc : (afterClaims t r 3).retry_count = 3 := by rw [afterClaims_retry, h0]
      have : (afterClaims t r 3).retry_count ≥ 3 := by omega
      simp [get_tasks, this]

theorem c2_retry_abandon_witness :
    ((get_tasks ⟨0, 0, ""⟩ 0).2).retry_count = (0 : Nat) + 1 ∧
    (get_tasks (afterClaims ⟨0, 0, ""⟩ 0 3) 0).1 = [] :=
  ⟨(c2_retry_abandon ⟨0, 0, ""⟩ 0).1, ((c2_retry_abandon ⟨0, 0, ""⟩ 0).2.2.2 rfl).2⟩

/-- C6: in every poll cycle the consumer first retries its own pending
unacknowledged message (leaving the shared stream untouched) and draws a
new message from the stream only when none is pending; and on every
trace the acknowledgment of a message is strictly preceded by the
completed handling of that message (the pipeline for it — success,
controlled failure or cancellation — runs before the ack, never after a
premature ack). -/
theorem c6_consume_order (b : Broker) :
    (∀ m, b.unacked = some m →
      (pollCycle b).1 = [ConsumeEvent.claim m, ConsumeEvent.handle m, ConsumeEvent.ack m] ∧
      (pollCycle b).2.stream = b.stream) ∧
    (b.unacked = none → ∀ m rest, b.stream = m :: rest →
      (pollCycle b).1 = [ConsumeEvent.claim m, ConsumeEvent.handle m, ConsumeEvent.ack m] ∧
      (pollCycle b).2.stream = rest) ∧
    (∀ m, ConsumeEvent.ack m ∈ (pollCycle b).1 →
      ∃ l1 l2, (pollCycle b).1 = l1 ++ ConsumeEvent.handle m :: l2 ∧
        ConsumeEvent.ack m ∈ l2) := by
  obtain ⟨u, st⟩ := b
  cases u with
  | some m0 =>
    refine ⟨?_, ?_, ?_⟩
    · intro m hm
      simp only [Option.some.injEq] at hm
      subst hm
      exact ⟨rfl, rfl⟩
    · intro h
      exact absurd h (by simp)
    · intro m hm
      obtain rfl : m = m0 := by simpa [pollCycle, collect] using hm
      exact ⟨[ConsumeEvent.claim m], [ConsumeEvent.ack m], rfl, by simp⟩
  | none =>
    cases st with
    | nil =>
      refine ⟨?_, ?_, ?_⟩
      · intro m hm; exact absurd hm (by simp)
      · intro _ m rest hrest; exact absurd hrest (by simp)
      · intro m hm; exact absurd hm (by simp [pollCycle, collect])
    | cons m0 rest0 =>
      refine ⟨?_, ?_, ?_⟩
      · intro m hm; exact absurd hm (by simp)
      · intro _ m rest hrest
        obtain ⟨rfl, rfl⟩ : m0 = m ∧ rest0 = rest := by simpa using hrest
        exact ⟨rfl, rfl⟩
      · intro m hm
        obtain rfl : m = m0 := by simpa [pollCycle, collect] using hm
        exact ⟨[ConsumeEvent.claim m], [ConsumeEvent.ack m], rfl, by simp⟩

theorem c6_consume_order_witness :
    (pollCycle ⟨some 5, [7]⟩).1 =
      [ConsumeEvent.claim 5, ConsumeEvent.handle 5, ConsumeEvent.ack 5] ∧
    (pollCycle ⟨some 5, [7]⟩).2.stream = [7] :=
  (c6_consume_order ⟨some 5, [7]⟩).1 5 rfl

/-- C8: a task whose document size exceeds the configured maximum is
rejected by `build` before anything else: the effect trace is exactly one
progress update to -1 carrying the size-limit message (no storage read
and no chunker call occur), and the returned chunk list is empty. -/
theorem c8_size_ceiling (maxSize : Nat) (hash : String → String) (row : Row) (ts : Nat)
    (fetch : FetchResult) (chunkResult : Except String (List String))
    (hbig : row.size > maxSize) :
    build maxSize hash row ts fetch chunkResult =
      ([Eff.progress (some (-1)) (sizeLimitMsg maxSize)], some []) ∧
    Eff.storageGet ∉ (build maxSize hash row ts fetch chunkResult).1 ∧
    (∀ fp tp, Eff.chunkerCall fp tp ∉ (build maxSize hash row ts fetch chunkResult).1) := by
  have h : build maxSize hash row ts fetch chunkResult =
      ([Eff.progress (some (-1)) (sizeLimitMsg maxSize)], some []) := by
    simp [build, hbig]
  refine ⟨h, ?_, ?_⟩
  · rw [h]; simp
  · intro fp tp; rw [h]; simp

theorem c8_size_ceiling_witness :
    build 10 id ⟨11, "d", "n", 0, 1⟩ 0 FetchResult.ok (Except.ok ["c"]) =
      ([Eff.progress (some (-1)) (sizeLimitMsg 10)], some []) :=
  (c8_size_ceiling 10 id ⟨11, "d", "n", 0, 1⟩ 0 FetchResult.ok (Except.ok ["c"])
    (by norm_num)).1

lemma build_no_esBulk (maxSize : Nat) (hash : String → String) (row : Row) (ts : Nat)
    (fetch : FetchResult) (chunkResult : Except String (List String)) :
    Eff.esBulk ∉ (build maxSize hash row ts fetch chunkResult).1 := by
  by_cases hbig : row.size > maxSize
  · simp [build, hbig]
  · cases fetch <;> cases chunkResult <;> simp [build, hbig]

lemma build_no_initKb (maxSize : Nat) (hash : String → String) (row : Row) (ts : Nat)
    (fetch : FetchResult) (chunkResult : Except String (List String)) :
    Eff.initKb ∉ (build maxSize hash row ts fetch chunkResult).1 := by
  by_cases hbig : row.size > maxSize
  · simp [build, hbig]
  · cases fetch <;> cases chunkResult <;> simp [build, hbig]

/-- C10: when `build` returns an empty (but non-None) chunk list, the
consumer loop appends a progress update to 1.0 with the message
"No chunk! Done!" and performs no indexing (no index creation and no
bulk write); in particular an oversized document — whose `build` sets
progress -1 and returns the empty list — ends with the trace
`[progress -1 (size message), progress 1.0 "No chunk! Done!"]`, so its
final observable progress is 1.0, not -1. -/
theorem c10_empty_chunklist_progress (maxSize : Nat) (hash : String → String) (row : Row)
    (ts : Nat) (fetch : FetchResult) (chunkResult : Except String (List String))
    (bulk : List String → String) (cancelled : Bool) :
    ((build maxSize hash row ts fetch chunkResult).2 = some [] →
      mainHandle maxSize hash row ts fetch chunkResult bulk cancelled =
        (build maxSize hash row ts fetch chunkResult).1 ++
          [Eff.progress (some 1) noChunkMsg] ∧
      Eff.esBulk ∉ mainHandle maxSize hash row ts fetch chunkResult bulk cancelled ∧
      Eff.initKb ∉ mainHandle maxSize hash row ts fetch chunkResult bulk cancelled) ∧
    (row.size > maxSize →
      mainHandle maxSize hash row ts fetch chunkResult bulk cancelled =
        [Eff.progress (some (-1)) (sizeLimitMsg maxSize),
         Eff.progress (some 1) noChunkMsg] ∧
      finalProgress (mainHandle maxSize hash row ts fetch chunkResult bulk cancelled) =
        some 1) := by
  constructor
  · intro hempty
    have htr : mainHandle maxSize hash row ts fetch chunkResult bulk cancelled =
        (build maxSize hash row ts fetch chunkResult).1 ++
          [Eff.progress (some 1) noChunkMsg] := by
      unfold mainHandle
      rw [hempty]
    refine ⟨htr, ?_, ?_⟩
    · rw [htr]
      simp only [List.mem_append, List.mem_singleton]
      rintro (h | h)
      · exact build_no_esBulk maxSize hash row ts fetch chunkResult h
      · simp at h
    · rw [htr]
      simp only [List.mem_append, List.mem_singleton]
      rintro (h | h)
      · exact build_no_initKb maxSize hash row ts fetch chunkResult h
      · simp at h
  · intro hbig
    have hb : build maxSize hash row ts fetch chunkResult =
        ([Eff.progress (some (-1)) (sizeLimitMsg maxSize)], some []) := by
      simp [build, hbig]
    have htr : mainHandle maxSize hash row ts fetch chunkResult bulk cancelled =
        [Eff.progress (some (-1)) (sizeLimitMsg maxSize),
         Eff.progress (some 1) noChunkMsg] := by
      unfold mainHandle
      rw [hb]
      rfl
    exact ⟨htr, by rw [htr]; rfl⟩

theorem c10_empty_chunklist_progress_witness :
    mainHandle 10 id ⟨11, "d", "n", 0, 1⟩ 0 FetchResult.ok (Except.ok ["c"])
        (fun _ => "") false =
      [Eff.progress (some (-1)) (sizeLimitMsg 10), Eff.progress (some 1) noChunkMsg] ∧
    finalProgress (mainHandle 10 id ⟨11, "d", "n", 0, 1⟩ 0 FetchResult.ok
        (Except.ok ["c"]) (fun _ => "") false) = some 1 :=
  (c10_empty_chunklist_progress 10 id ⟨11, "d", "n", 0, 1⟩ 0 FetchResult.ok
    (Except.ok ["c"]) (fun _ => "") false).2 (by norm_num)

/-- C3 (code bug): evaluating the indexing section at a concrete failing
input — 8 chunks, bulk-batch size 4, where the first `ELASTICSEARCH.bulk`
call reports an error and the second succeeds — shows the error is
swallowed: `es_r` is overwritten by each batch's result and only checked
after the loop, so no delete-by-document-id happens, no failure is
reported, and the task completes, contradicting the claim (and spec) that
an error in ANY bulk batch triggers the compensating delete and the
failed state. -/
theorem c3_bulk_error_compensation :
    sliceBatches 4 ["a", "b", "c", "d", "e", "f", "g", "h"] =
      [["a", "b", "c", "d"], ["e", "f", "g", "h"]] ∧
    (fun b : List String => if b.contains "a" then "err" else "") ["a", "b", "c", "d"] =
      "err" ∧
    indexPhase (fun b : List String => if b.contains "a" then "err" else "")
        ["a", "b", "c", "d", "e", "f", "g", "h"] false =
      { deletedByDocId := false, reportedFailure := false, completed := true } := by
  refine ⟨by decide, by decide, by decide⟩

lemma sliceBatchesAux_flatten {α : Type} (size : Nat) (hsize : 0 < size) :
    ∀ (fuel : Nat) (l : List α), l.length ≤ fuel →
      (sliceBatchesAux size fuel l).flatten = l := by
  intro fuel
  induction fuel with
  | zero =>
    intro l h
    have hl : l = [] := List.eq_nil_of_length_eq_zero (by omega)
    subst hl
    rfl
  | succ n ih =>
    intro l h
    cases l with
    | nil => rfl
    | cons a l' =>
      rw [show sliceBatchesAux size (n + 1) (a :: l') =
          List.take size (a :: l') :: sliceBatchesAux size n (List.drop size (a :: l'))
        from rfl]
      rw [List.flatten_cons, ih ((a :: l').drop size)
          (by simp only [List.length_drop, List.length_cons] at *; omega),
        List.take_append_drop]

lemma batchEncode_eq_map (enc : String → List Rat) (texts : List String) :
    batchEncode enc texts = texts.map enc := by
  unfold batchEncode
  have hflat : ∀ L : List (List String),
      ((L.map (List.map enc)).flatten) = L.flatten.map enc := by
    intro L
    induction L with
    | nil => rfl
    | cons a L ih =>
      rw [List.map_cons, List.flatten_cons, ih, List.flatten_cons, List.map_append]
  rw [hflat, sliceBatches, sliceBatchesAux_flatten 32 (by norm_num) _ _ (le_refl _)]

lemma filterMap_eq_map_of_all_some {α β : Type} (f : α → Option β) (g : α → β) :
    ∀ l : List α, (∀ a ∈ l, f a = some (g a)) → l.filterMap f = l.map g := by
  intro l
  induction l with
  | nil => intro _; rfl
  | cons a l ih =>
    intro h
    rw [List.filterMap_cons, h a (List.mem_cons_self a l), List.map_cons,
      ih (fun b hb => h b (List.mem_cons_of_mem a hb))]

lemma length_filterMap_lt_of_none {α β : Type} (f : α → Option β) :
    ∀ l : List α, (∃ a ∈ l, f a = none) → (l.filterMap f).length < l.length := by
  intro l
  induction l with
  | nil => rintro ⟨a, ha, _⟩; simp at ha
  | cons a l ih =>
    rintro ⟨b, hb, hfb⟩
    rw [List.filterMap_cons]
    rcases List.mem_cons.mp hb with rfl | hbl
    · rw [hfb]
      have := List.length_filterMap_le f l
      simp only [List.length_cons]
      omega
    · have hlt := ih ⟨b, hbl, hfb⟩
      cases hfa : f a with
      | none =>
        simp only [List.length_cons]
        omega
      | some c =>
        simp only [List.length_cons]
        omega

lemma zipWith_map_same {α β γ δ : Type} (f : α → β) (g : α → γ) (k : β → γ → δ) :
    ∀ l : List α, List.zipWith k (l.map f) (l.map g) = l.map fun x => k (f x) (g x) := by
  intro l
  induction l with
  | nil => rfl
  | cons a l ih => simp [ih]

/-- C4: for a non-empty chunk list processed by the embedding stage with
title weight `w`: when every chunk has a (truthy) title token field, each
chunk's stored vector is `w * title_vector + (1 - w) * content_vector`;
otherwise each chunk's stored vector is its content vector alone; and
with `w = 1/10`, title vector `[1, 0]` and content vector `[0, 1]`, the
stored vector is `[1/10, 9/10]`. -/
theorem c4_title_fusion (enc : String → List Rat) (rmSp strip : String → String)
    (docs : List EmbChunk) (w : Rat) (hne : docs ≠ []) :
    ((∀ d ∈ docs, (truthyTitle d).isSome) →
      embedding enc rmSp strip docs w =
        docs.map fun d =>
          fuseVec w (enc (rmSp ((truthyTitle d).getD "")))
            (enc (strip d.content_with_weight))) ∧
    ((∃ d ∈ docs, truthyTitle d = none) →
      embedding enc rmSp strip docs w =
        docs.map fun d => enc (strip d.content_with_weight)) ∧
    embedding (fun s => if s = "t" then [1, 0] else [0, 1]) id id
        [{ title_tks := some "t", content_with_weight := "c" }] (1 / 10) =
      [[1 / 10, 9 / 10]] := by
  refine ⟨?_, ?_, ?_⟩
  · intro hall
    have htts : docs.filterMap (fun d => (truthyTitle d).map rmSp) =
        docs.map (fun d => rmSp ((truthyTitle d).getD "")) := by
      apply filterMap_eq_map_of_all_some
      intro a ha
      obtain ⟨x, hx⟩ := Option.isSome_iff_exists.mp (hall a ha)
      rw [hx]
      rfl
    unfold embedding
    rw [htts, if_pos (by rw [List.length_map, List.length_map]),
      batchEncode_eq_map, batchEncode_eq_map, List.map_map, List.map_map]
    exact zipWith_map_same _ _ _ docs
  · intro hnone
    have hlt : (docs.filterMap (fun d => (truthyTitle d).map rmSp)).length <
        docs.length := by
      apply length_filterMap_lt_of_none
      obtain ⟨d, hd, hdn⟩ := hnone
      exact ⟨d, hd, by rw [hdn]; rfl⟩
    unfold embedding
    rw [if_neg (by rw [List.length_map]; omega), batchEncode_eq_map, List.map_map]
    rfl
  · simp [embedding, truthyTitle, batchEncode_eq_map, fuseVec]
    norm_num

theorem c4_title_fusion_witness :
    embedding (fun s => if s = "t" then [1, 0] else [0, 1]) id id
        [{ title_tks := some "t", content_with_weight := "c" }] (1 / 10) =
      [[1 / 10, 9 / 10]] :=
  (c4_title_fusion (fun s => if s = "t" then [1, 0] else [0, 1]) id id
    [{ title_tks := some "t", content_with_weight := "c" }] (1 / 10)
    (by simp)).2.2

lemma map_congr_mem {α β : Type} (f g : α → β) :
    ∀ l : List α, (∀ a ∈ l, f a = g a) → l.map f = l.map g := by
  intro l
  induction l with
  | nil => intro _; rfl
  | cons a l ih =>
    intro h
    rw [List.map_cons, List.map_cons, h a (List.mem_cons_self a l),
      ih (fun b hb => h b (List.mem_cons_of_mem a hb))]

lemma storeKeys_replace (st : List (String × String)) (c : String × String) :
    storeKeys (st.map fun p => if p.1 = c.1 then c else p) = storeKeys st := by
  unfold storeKeys
  rw [List.map_map]
  apply map_congr_mem
  intro p _
  by_cases hpc : p.1 = c.1 <;> simp [hpc]

lemma storeKeys_upsert_mem (st : List (String × String)) (c : String × String)
    (k : String) : k ∈ storeKeys (upsert st c) ↔ k ∈ storeKeys st ∨ k = c.1 := by
  unfold upsert
  by_cases h : c.1 ∈ st.map (fun p => p.1)
  · rw [if_pos h, storeKeys_replace]
    constructor
    · exact Or.inl
    · rintro (hk | rfl)
      · exact hk
      · exact h
  · rw [if_neg h]
    unfold storeKeys
    rw [List.map_append]
    simp

lemma storeKeys_upsert_nodup (st : List (String × String)) (c : String × String)
    (h : (storeKeys st).Nodup) : (storeKeys (upsert st c)).Nodup := by
  unfold upsert
  by_cases hm : c.1 ∈ st.map (fun p => p.1)
  · rw [if_pos hm, storeKeys_replace]
    exact h
  · rw [if_neg hm]
    unfold storeKeys
    rw [List.map_append, List.nodup_append]
    refine ⟨h, List.nodup_singleton _, ?_⟩
    intro k hk
    simp only [List.map_cons, List.map_nil, List.mem_singleton]
    intro hkc
    subst hkc
    exact hm hk

lemma storeKeys_bulkUpsert_mem :
    ∀ (cks st : List (String × String)) (k : String),
      k ∈ storeKeys (bulkUpsert st cks) ↔
        k ∈ storeKeys st ∨ k ∈ cks.map Prod.fst := by
  intro cks
  induction cks with
  | nil => intro st k; simp [bulkUpsert]
  | cons c cks ih =>
    intro st k
    rw [show bulkUpsert st (c :: cks) = bulkUpsert (upsert st c) cks from rfl, ih,
      storeKeys_upsert_mem]
    simp only [List.map_cons, List.mem_cons]
    tauto

lemma storeKeys_bulkUpsert_nodup :
    ∀ (cks st : List (String × String)), (storeKeys st).Nodup →
      (storeKeys (bulkUpsert st cks)).Nodup := by
  intro cks
  induction cks with
  | nil => intro st h; exact h
  | cons c cks ih =>
    intro st h
    rw [show bulkUpsert st (c :: cks) = bulkUpsert (upsert st c) cks from rfl]
    exact ih _ (storeKeys_upsert_nodup st c h)

/-- C7: a chunk's identifier is `hash(content ++ doc_id)` — a function of
the chunk content and the document id only, independent in particular of
the per-run creation timestamp — so two runs over the same content
produce the same id list, and bulk-upserting both runs into an id-keyed
index leaves exactly one copy per id: the final key set equals the id set
of one run, with no duplicate keys. -/
theorem c7_idempotent_ids (hash : String → String) (docId : String)
    (contents : List String) (ts1 ts2 : Nat) :
    chunkIds (stamp hash docId ts1 contents) = chunkIds (stamp hash docId ts2 contents) ∧
    chunkIds (stamp hash docId ts1 contents) = contents.map (fun c => hash (c ++ docId)) ∧
    (∀ k,
      k ∈ storeKeys (bulkUpsert (bulkUpsert [] (toKV (stamp hash docId ts1 contents)))
          (toKV (stamp hash docId ts2 contents))) ↔
        k ∈ chunkIds (stamp hash docId ts1 contents)) ∧
    (storeKeys (bulkUpsert (bulkUpsert [] (toKV (stamp hash docId ts1 contents)))
        (toKV (stamp hash docId ts2 contents)))).Nodup := by
  have hids : ∀ ts, chunkIds (stamp hash docId ts contents) =
      contents.map (fun c => hash (c ++ docId)) := by
    intro ts
    unfold chunkIds stamp
    rw [List.map_map]
    rfl
  have hkv : ∀ ts, (toKV (stamp hash docId ts contents)).map Prod.fst =
      contents.map (fun c => hash (c ++ docId)) := by
    intro ts
    unfold toKV stamp
    rw [List.map_map, List.map_map]
    rfl
  refine ⟨by rw [hids, hids], hids ts1, ?_, ?_⟩
  · intro k
    rw [storeKeys_bulkUpsert_mem, storeKeys_bulkUpsert_mem, hkv, hkv, hids]
    simp only [storeKeys, List.map_nil, List.not_mem_nil, false_or]
    tauto
  · exact storeKeys_bulkUpsert_nodup _ _
      (storeKeys_bulkUpsert_nodup _ _ (by simp [storeKeys]))

theorem c7_idempotent_ids_witness :
    chunkIds (stamp (fun s => s) "d" 1 ["x"]) =
      chunkIds (stamp (fun s => s) "d" 2 ["x"]) :=
  (c7_idempotent_ids (fun s => s) "d" ["x"] 1 2).1

/-- C9: when the RAPTOR call has appended `appended` synthesized
(summary, vector) pairs to a working set that initially held the
document's `orig` original chunks, `run_raptor` emits exactly the
appended pairs as new chunks — one chunk per appended pair, carrying its
content and vector, with no original chunk re-emitted — and every
emitted chunk's title token field is the tokenization of the document's
name. -/
theorem c9_raptor_emission (hash tokenize fineGrained : String → String)
    (doc_id name : String) (orig appended : List (String × List Rat)) :
    (run_raptor hash tokenize fineGrained doc_id name (orig ++ appended)
        orig.length).map (fun c => (c.content_with_weight, c.vec)) = appended ∧
    (run_raptor hash tokenize fineGrained doc_id name (orig ++ appended)
        orig.length).length = appended.length ∧
    ∀ c ∈ run_raptor hash tokenize fineGrained doc_id name (orig ++ appended)
        orig.length, c.title_tks = tokenize name := by
  have hd : (orig ++ appended).drop orig.length = appended := List.drop_left orig appended
  unfold run_raptor
  rw [hd]
  refine ⟨?_, by rw [List.length_map], ?_⟩
  · rw [List.map_map]
    exact List.map_id appended
  · intro c hc
    obtain ⟨p, _, rfl⟩ := List.mem_map.mp hc
    rfl

theorem c9_raptor_emission_witness :
    (run_raptor (fun s => s) (fun s => s) (fun s => s) "d" "n"
        ([("o", [1])] ++ [("a", [2])]) [(("o", [1]) : String × List Rat)].length).length =
      [(("a", [2]) : String × List Rat)].length :=
  (c9_raptor_emission (fun s => s) (fun s => s) (fun s => s) "d" "n"
    [("o", [1])] [("a", [2])]).2.1

end RagFlow
